import Mathlib

/-!
Verification of the commit-pipeline buffer manager
(`src/consensus/src/experimental/buffer_manager.rs`).

The manager's state and handlers are embedded shallowly.  Machine pointers
(linked-list `Link`s) are modelled as absolute slot keys: the buffer keeps the
number of items popped so far (`off`) together with the list of live items, so
a cursor is a `Nat` key that stays valid across in-place replacement and
`push_back`, and becomes dangling only when its slot is popped — the cursor
stability contract of the source's linked list.

`buffer_item.rs` and `linkedlist.rs` are not part of the analysed sources;
their operations are modelled from the specification (section 4.1 and 4.2) and
are marked as such below.  Everything in `StateManager` follows
`buffer_manager.rs` line by line.
-/

namespace BufferManager

abbrev Author := Nat
abbrev Sig := Nat
abbrev HashValue := Nat

/-- Block metadata; only the id and a payload field are relevant here. -/
structure BlockInfo where
  id : Nat
  payload : Nat
deriving DecidableEq, Inhabited

/-- An executed (or ordered) block; `block_info.id` is its id. -/
structure ExecutedBlock where
  block_info : BlockInfo
deriving DecidableEq

/-- `LedgerInfo::new(commit_info, consensus_data_hash)`. -/
structure LedgerInfo where
  commit_info : BlockInfo
  consensus_data_hash : HashValue
deriving DecidableEq, Inhabited

/-- A ledger info together with a signature map keyed by author. -/
structure LedgerInfoWithSignatures where
  ledger_info : LedgerInfo
  signatures : List (Author × Sig)
deriving DecidableEq

/-- A commit vote: author, the commit ledger info it signs, and the signature. -/
structure CommitVote where
  author : Author
  ledger_info : LedgerInfo
  signature : Sig
deriving DecidableEq

/-- Modelled from the spec: the Validator Verifier collaborator (section 4.4,
`validator_verifier` is outside the analysed sources).  It exposes per-author
voting power, a quorum threshold and single-signature verification. -/
structure ValidatorVerifier where
  voting_power : Author → Nat
  quorum : Nat
  sig_ok : Author → LedgerInfo → Sig → Bool

/-- `check_voting_power`: the summed power of the given authors meets quorum. -/
def ValidatorVerifier.check_voting_power (v : ValidatorVerifier)
    (authors : List Author) : Bool :=
  v.quorum ≤ (authors.map v.voting_power).sum

/-- Verify an externally supplied `LedgerInfoWithSignatures`: each signature
checks out against its ledger info and the signers form a quorum. -/
def ValidatorVerifier.verify_li (v : ValidatorVerifier)
    (li : LedgerInfoWithSignatures) : Bool :=
  v.check_voting_power (li.signatures.map Prod.fst) &&
    li.signatures.all (fun p => v.sig_ok p.1 li.ledger_info p.2)

/-- Modelled from the spec: `BufferItem` (buffer_item.rs is outside the
analysed sources).  Four states, each carrying the data accumulated so far
(spec section 3 / 4.1).  Callbacks are opaque tokens. -/
inductive BufferItem where
  | ordered (ordered_blocks : List ExecutedBlock)
      (ordered_proof : LedgerInfoWithSignatures) (callback : Nat)
  | executed (executed_blocks : List ExecutedBlock)
      (ordered_proof : LedgerInfoWithSignatures) (callback : Nat)
  | signed (executed_blocks : List ExecutedBlock)
      (ordered_proof : LedgerInfoWithSignatures) (callback : Nat)
      (commit_vote : CommitVote) (signatures : List (Author × Sig))
  | aggregated (executed_blocks : List ExecutedBlock)
      (aggregated_proof : LedgerInfoWithSignatures) (callback : Nat)
deriving DecidableEq

instance : Inhabited BufferItem :=
  ⟨BufferItem.ordered [] { ledger_info := default, signatures := [] } 0⟩

namespace BufferItem

/-- The item's block list: ordered blocks before execution, executed blocks
(with state roots) afterwards. -/
def get_blocks : BufferItem → List ExecutedBlock
  | ordered bs _ _ => bs
  | executed bs _ _ => bs
  | signed bs _ _ _ _ => bs
  | aggregated bs _ _ => bs

/-- The id of the last block in the item's block list. -/
def block_id (it : BufferItem) : Nat :=
  (it.get_blocks.getLast?.elim 0 (fun b => b.block_info.id))

def is_ordered : BufferItem → Bool
  | ordered .. => true
  | _ => false

def is_executed : BufferItem → Bool
  | executed .. => true
  | _ => false

def is_signed : BufferItem → Bool
  | signed .. => true
  | _ => false

def is_aggregated : BufferItem → Bool
  | aggregated .. => true
  | _ => false

/-- The aggregated proof and callback of an Aggregated item (the payload the
source's `if let BufferItem::Aggregated(aggregated)` destructures). -/
def agg_data : BufferItem → Option (LedgerInfoWithSignatures × Nat)
  | aggregated _ proof cb => some (proof, cb)
  | _ => none

/-- Modelled from the spec: `BufferItem::new_ordered`. -/
def new_ordered (ordered_blocks : List ExecutedBlock)
    (ordered_proof : LedgerInfoWithSignatures) (callback : Nat) : BufferItem :=
  .ordered ordered_blocks ordered_proof callback

/-- Modelled from the spec: `advance_to_executed` — Ordered → Executed,
attaching the executed blocks and preserving proof and callback.  The manager
asserts `is_ordered` before calling; other states are returned unchanged. -/
def advance_to_executed (it : BufferItem)
    (executed_blocks : List ExecutedBlock) : BufferItem :=
  match it with
  | ordered _ proof cb => .executed executed_blocks proof cb
  | other => other

/-- The commit ledger-info of an Executed item: the last executed block's
`block_info` combined with the ordered proof's consensus data hash
(spec section 4.1; also built inline in `advance_signing_root`). -/
def commit_ledger_info_of (executed_blocks : List ExecutedBlock)
    (ordered_proof : LedgerInfoWithSignatures) : LedgerInfo :=
  { commit_info := (executed_blocks.getLast?.elim default (fun b => b.block_info)),
    consensus_data_hash := ordered_proof.ledger_info.consensus_data_hash }

/-- Modelled from the spec: `advance_to_signed` — Executed → Signed.  Builds
the commit ledger-info, produces the local commit vote signed under `author`
and seeds the signature map with it.  Only called after an `is_executed`
check; other states are returned unchanged with a dummy vote. -/
def advance_to_signed (it : BufferItem) (author : Author) (sig : Sig)
    (_verifier : ValidatorVerifier) : BufferItem × CommitVote :=
  match it with
  | executed bs proof cb =>
      let li := commit_ledger_info_of bs proof
      let vote : CommitVote := { author := author, ledger_info := li, signature := sig }
      (.signed bs proof cb vote [(author, sig)], vote)
  | other => (other, { author := author, ledger_info := default, signature := sig })

/-- Insert into the signature map keyed by author; a duplicate author silently
overwrites (last-write-wins, spec section 4.1). -/
def insertSig (sigs : List (Author × Sig)) (a : Author) (s : Sig) :
    List (Author × Sig) :=
  if sigs.any (fun p => p.1 = a) then
    sigs.map (fun p => if p.1 = a then (a, s) else p)
  else
    sigs ++ [(a, s)]

inductive SigError where
  | mismatchedLedgerInfo
  | invalidSignature
  | notSigned
deriving DecidableEq

/-- Modelled from the spec: `add_signature_if_matched` — valid on Signed only.
Fails with `MismatchedLedgerInfo` when the peer's `block_info` differs from
the local commit ledger-info's block info, with `InvalidSignature` when
verification fails; on success inserts into the signature map.  The source
call site passes no verifier, so verification is modelled against the
manager's verifier. -/
def add_signature_if_matched (it : BufferItem) (verifier : ValidatorVerifier)
    (peer_block_info : BlockInfo) (author : Author) (sig : Sig) :
    Except SigError BufferItem :=
  match it with
  | signed bs proof cb vote sigs =>
      if peer_block_info ≠ vote.ledger_info.commit_info then
        .error .mismatchedLedgerInfo
      else if !(verifier.sig_ok author vote.ledger_info sig) then
        .error .invalidSignature
      else
        .ok (signed bs proof cb vote (insertSig sigs author sig))
  | _ => .error .notSigned

/-- Modelled from the spec: `try_advance_to_aggregated` — Signed → Aggregated
when the signature set meets the voting-power threshold; idempotent on
Aggregated; all other cases return the item unchanged. -/
def try_advance_to_aggregated (it : BufferItem)
    (verifier : ValidatorVerifier) : BufferItem :=
  match it with
  | signed bs _proof cb vote sigs =>
      if verifier.check_voting_power (sigs.map Prod.fst) then
        .aggregated bs { ledger_info := vote.ledger_info, signatures := sigs } cb
      else
        signed bs _proof cb vote sigs
  | other => other

/-- Modelled from the spec: `try_advance_to_aggregated_with_ledger_info` —
any non-Aggregated state becomes Aggregated when the external ledger info
verifies and its commit id equals the item's block id; otherwise unchanged. -/
def try_advance_to_aggregated_with_ledger_info (it : BufferItem)
    (verifier : ValidatorVerifier) (li : LedgerInfoWithSignatures) : BufferItem :=
  match it with
  | aggregated bs proof cb => aggregated bs proof cb
  | other =>
      if verifier.verify_li li && li.ledger_info.commit_info.id = other.block_id then
        .aggregated other.get_blocks li (match other with
          | ordered _ _ cb => cb
          | executed _ _ cb => cb
          | signed _ _ cb _ _ => cb
          | aggregated _ _ cb => cb)
      else
        other

end BufferItem

/-- Modelled from the spec: the ordered buffer (`linkedlist.rs` is outside the
analysed sources).  `off` counts the items popped so far, so the slot of the
i-th live item has the stable absolute key `off + i`; a cursor (`Link`) is
such a key. -/
structure BufferList where
  off : Nat
  items : List BufferItem
deriving DecidableEq

namespace BufferList

/-- The head link: the first live slot's key, `none` when empty. -/
def head (b : BufferList) : Option Nat :=
  if b.items.isEmpty then none else some b.off

/-- The item occupying slot `k`, if the slot is live. -/
def get? (b : BufferList) (k : Nat) : Option BufferItem :=
  if k < b.off then none else b.items[k - b.off]?

/-- `push_back`. -/
def push_back (b : BufferList) (it : BufferItem) : BufferList :=
  { b with items := b.items ++ [it] }

/-- `pop_front`: the head item together with the remaining buffer. -/
def pop_front (b : BufferList) : Option (BufferItem × BufferList) :=
  match b.items with
  | [] => none
  | it :: rest => some (it, { off := b.off + 1, items := rest })

/-- `set_elem`: replace the item in slot `k` in place. -/
def set_elem (b : BufferList) (k : Nat) (it : BufferItem) : BufferList :=
  { b with items := b.items.set (k - b.off) it }

/-- The linear scan of `find_elem`: the index of the first item satisfying
the predicate. -/
def scanFind (p : BufferItem → Bool) : List BufferItem → Option Nat
  | [] => none
  | it :: rest => if p it then some 0 else (scanFind p rest).map (· + 1)

/-- `find_elem(link, pred)`: scan from the linked slot onwards, returning the
first slot whose item satisfies the predicate. -/
def find_elem (b : BufferList) (c : Option Nat) (p : BufferItem → Bool) :
    Option Nat :=
  match c with
  | none => none
  | some k =>
      let start := k - b.off
      (scanFind p (b.items.drop start)).map (fun j => b.off + start + j)

/-- `get_next(link)`: the next slot of the list, `none` at the tail. -/
def get_next (b : BufferList) (c : Option Nat) : Option Nat :=
  match c with
  | none => none
  | some k => if k + 1 < b.off + b.items.length then some (k + 1) else none

/-- `link_eq`. -/
def link_eq (a c : Option Nat) : Bool := a = c

end BufferList

/-! ## The state manager (`buffer_manager.rs`) -/

/-- `OrderedBlocks` (buffer_manager.rs, lines 51-55). -/
structure OrderedBlocks where
  ordered_blocks : List ExecutedBlock
  ordered_proof : LedgerInfoWithSignatures
  callback : Nat
deriving DecidableEq

/-- `SyncRequest` (buffer_manager.rs, lines 45-49); the oneshot reply channel
is represented by the `ack` output. -/
structure SyncRequest where
  ledger_info : LedgerInfoWithSignatures
  reconfig : Bool
deriving DecidableEq

/-- `ExecutionResponse`: a fallible list of executed blocks. -/
structure ExecutionResponse where
  inner : Except Unit (List ExecutedBlock)

/-- `SigningResponse`: a fallible signature plus the commit ledger info. -/
structure SigningResponse where
  signature_result : Except Unit Sig
  commit_ledger_info : LedgerInfo

/-- Everything the manager emits on its outbound channels. -/
inductive Out where
  | execReq (ordered_blocks : List ExecutedBlock)
  | signReq (ordered_ledger_info : LedgerInfoWithSignatures)
      (commit_ledger_info : LedgerInfo)
  | persistReq (blocks : List ExecutedBlock)
      (commit_ledger_info : LedgerInfoWithSignatures) (callback : Nat)
  | broadcastVote (vote : CommitVote)
  | ack
deriving DecidableEq

/-- The ways the manager can abort fatally (`assert!` / `unwrap` /
`unreachable!` / `expect` in the source). -/
inductive Fatal where
  | executionFailure
  | emptyExecutionResponse
  | assertNotAggregated
  | expectAggregated
  | aggregatedNotFound
  | assertNotOrdered
  | invalidCursor
  | wrongStateInSigningRoot
  | emptyExecutedBlocks
  | wrongStateInRetry
deriving DecidableEq

/-- The `StateManager` fields the claims are about (buffer_manager.rs,
lines 64-90); channel endpoints are replaced by the `Out` trace. -/
structure StateManager where
  author : Author
  buffer : BufferList
  execution_root : Option Nat
  signing_root : Option Nat
  end_epoch : Bool
  verifier : ValidatorVerifier

namespace StateManager

/-- `process_ordered_blocks` (lines 140-150): build a new Ordered item and
push it to the buffer tail.  No other state changes and no emissions. -/
def process_ordered_blocks (s : StateManager) (ob : OrderedBlocks) :
    StateManager :=
  { s with buffer := s.buffer.push_back
              (BufferItem.new_ordered ob.ordered_blocks ob.ordered_proof ob.callback) }

/-- `advance_execution_root` (lines 154-164): move the execution root to the
first Ordered item from the current root (or the head when absent) and, when
found, emit one execution request with that item's blocks. -/
def advance_execution_root (s : StateManager) : StateManager × List Out :=
  let cursor := s.execution_root.orElse (fun _ => s.buffer.head)
  let root := s.buffer.find_elem cursor (fun it => it.is_ordered)
  match root with
  | none => ({ s with execution_root := none }, [])
  | some k =>
      match s.buffer.get? k with
      | none => ({ s with execution_root := root }, [])
      | some it =>
          ({ s with execution_root := root }, [Out.execReq it.get_blocks])

/-- `advance_signing_root` (lines 168-193): move the signing root to the first
Executed item from the current root (or the head when absent) and, when found,
emit one signing request with its ordered proof and derived commit
ledger-info.  The `unwrap` on the last executed block and the
`unreachable!` on a non-Executed item are fatal. -/
def advance_signing_root (s : StateManager) :
    Except Fatal (StateManager × List Out) :=
  let cursor := s.signing_root.orElse (fun _ => s.buffer.head)
  let root := s.buffer.find_elem cursor (fun it => it.is_executed)
  match root with
  | none => .ok ({ s with signing_root := none }, [])
  | some k =>
      match s.buffer.get? k with
      | none => .error .invalidCursor
      | some (.executed bs proof _cb) =>
          match bs.getLast? with
          | none => .error .emptyExecutedBlocks
          | some lastBlock =>
              .ok ({ s with signing_root := root },
                [Out.signReq proof
                  { commit_info := lastBlock.block_info,
                    consensus_data_hash := proof.ledger_info.consensus_data_hash }])
      | some _ => .error .wrongStateInSigningRoot

/-- The body of `advance_head`'s while-loop (lines 205-230): pop items from
the front, accumulating every popped item's blocks, until the popped item's
block id equals the target id; that final item must be Aggregated.  Running
off the end of the list, or meeting the target id on a non-Aggregated item,
hits an `unreachable!`. -/
def popLoop (target : Nat) :
    List BufferItem → List ExecutedBlock →
    Except Fatal (List BufferItem × LedgerInfoWithSignatures × Nat ×
      List ExecutedBlock)
  | [], _ => .error .aggregatedNotFound
  | it :: rest, acc =>
      let acc2 := acc ++ it.get_blocks
      if it.block_id = target then
        match it.agg_data with
        | some (proof, cb) => .ok (rest, proof, cb, acc2)
        | none => .error .expectAggregated
      else
        popLoop target rest acc2

/-- `advance_head` (lines 197-232): assert the cursor's item is Aggregated,
pop the prefix up to the item carrying the target block id and emit one
persistence request with all the accumulated blocks, the final item's
aggregated proof and its callback. -/
def advance_head (s : StateManager) (aggregated_cursor : Option Nat) :
    Except Fatal (StateManager × List Out) :=
  match aggregated_cursor with
  | none => .error .invalidCursor
  | some k =>
      match s.buffer.get? k with
      | none => .error .invalidCursor
      | some it =>
          if !it.is_aggregated then .error .assertNotAggregated
          else
            match popLoop it.block_id s.buffer.items [] with
            | .error e => .error e
            | .ok (rest, proof, cb, blocks) =>
                .ok ({ s with buffer :=
                        { off := s.buffer.off + (s.buffer.items.length - rest.length),
                          items := rest } },
                  [Out.persistReq blocks proof cb])

/-- `reset_all_roots` (lines 235-238). -/
def reset_all_roots (s : StateManager) : StateManager :=
  { s with execution_root := none, signing_root := none }

/-- `process_sync_request` (lines 246-282).  With `reconfig` set only
`end_epoch` is raised; otherwise the item matching the ledger info's commit id
(if any) is advanced with the external ledger info, `advance_head` runs when
that made it Aggregated, and both roots are reset.  The ack is always sent
last. -/
def process_sync_request (s : StateManager) (req : SyncRequest) :
    Except Fatal (StateManager × List Out) :=
  if req.reconfig then
    .ok ({ s with end_epoch := true }, [Out.ack])
  else
    let cursor := s.buffer.find_elem s.buffer.head
      (fun it => it.block_id = req.ledger_info.ledger_info.commit_info.id)
    match cursor with
    | none => .ok (reset_all_roots s, [Out.ack])
    | some k =>
        match s.buffer.get? k with
        | none => .error .invalidCursor
        | some buffer_item =>
            let attempted_item := buffer_item.try_advance_to_aggregated_with_ledger_info
              s.verifier req.ledger_info
            let aggregated := attempted_item.is_aggregated
            let s2 := { s with buffer := s.buffer.set_elem k attempted_item }
            if aggregated then
              match advance_head s2 (some k) with
              | .error e => .error e
              | .ok (s3, outs) => .ok (reset_all_roots s3, outs ++ [Out.ack])
            else
              .ok (reset_all_roots s2, [Out.ack])

/-- `process_execution_response` (lines 285-302).  An error result is fatal
(`expect`).  Otherwise the item matching the last executed block's id is
looked up from the execution root; when found it must be Ordered (`assert!`)
and is replaced by its Executed transition; when absent nothing changes. -/
def process_execution_response (s : StateManager) (resp : ExecutionResponse) :
    Except Fatal StateManager :=
  match resp.inner with
  | .error _ => .error .executionFailure
  | .ok executed_blocks =>
      match executed_blocks.getLast? with
      | none => .error .emptyExecutionResponse
      | some lastBlock =>
          let current_cursor := s.buffer.find_elem s.execution_root
            (fun it => it.block_id = lastBlock.block_info.id)
          match current_cursor with
          | none => .ok s
          | some k =>
              match s.buffer.get? k with
              | none => .error .invalidCursor
              | some buffer_item =>
                  if !buffer_item.is_ordered then .error .assertNotOrdered
                  else
                    .ok { s with buffer := s.buffer.set_elem k
                                    (buffer_item.advance_to_executed executed_blocks) }

/-- `process_signing_response` (lines 305-336).  An error result is logged
and dropped.  Otherwise the item matching the commit ledger info's id is
looked up from the signing root; when found and Executed it is replaced by
its Signed transition and the commit vote is broadcast.  (When the found item
is not Executed the source leaves the taken slot empty and drops the item;
no analysed claim exercises that branch and it is modelled as reinstalling
the item unchanged.) -/
def process_signing_response (s : StateManager) (resp : SigningResponse) :
    StateManager × List Out :=
  match resp.signature_result with
  | .error _ => (s, [])
  | .ok signature =>
      let current_cursor := s.buffer.find_elem s.signing_root
        (fun it => it.block_id = resp.commit_ledger_info.commit_info.id)
      match current_cursor with
      | none => (s, [])
      | some k =>
          match s.buffer.get? k with
          | none => (s, [])
          | some buffer_item =>
              if buffer_item.is_executed then
                let pair := buffer_item.advance_to_signed s.author signature s.verifier
                ({ s with buffer := s.buffer.set_elem k pair.1 },
                  [Out.broadcastVote pair.2])
              else
                (s, [])

/-- `process_commit_message` (lines 341-375): find the item matching the
vote's commit id in the whole buffer; add the signature (on failure the error
is logged and the item reinstalled unchanged), try to aggregate, reinstall,
and return the cursor exactly when the slot now holds an Aggregated item. -/
def process_commit_message (s : StateManager) (vote : CommitVote) :
    StateManager × Option Nat :=
  let current_cursor := s.buffer.find_elem s.buffer.head
    (fun it => it.block_id = vote.ledger_info.commit_info.id)
  match current_cursor with
  | none => (s, none)
  | some k =>
      match s.buffer.get? k with
      | none => (s, none)
      | some buffer_item =>
          let new_item := match buffer_item.add_signature_if_matched s.verifier
              vote.ledger_info.commit_info vote.author vote.signature with
            | .ok added => added.try_advance_to_aggregated s.verifier
            | .error _ => buffer_item
          let s2 := { s with buffer := s.buffer.set_elem k new_item }
          if new_item.is_aggregated then (s2, some k) else (s2, none)

end StateManager

/-- The outcome of the retry loop under a fuel bound. -/
inductive RetryResult where
  | outOfFuel
  | fatal (e : Fatal)
  | done (outs : List Out)
deriving DecidableEq

/-- The while-loop of `retry_broadcasting_commit_votes` (lines 379-403),
modelled with explicit fuel.  The loop exits when the cursor is `none` or
equals the signing root; the next cursor is computed before the body, but the
`continue` on an Aggregated item skips the `cursor = next_cursor` assignment,
so the cursor is left unchanged there — exactly as in the source. -/
def retryLoop (s : StateManager) : Option Nat → Nat → RetryResult
  | _, 0 => .outOfFuel
  | cursor, fuel + 1 =>
      if cursor.isNone || BufferList.link_eq cursor s.signing_root then
        .done []
      else
        let next_cursor := s.buffer.get_next cursor
        match cursor with
        | none => .done []
        | some k =>
            match s.buffer.get? k with
            | none => .fatal .invalidCursor
            | some (.aggregated ..) => retryLoop s cursor fuel
            | some (.signed _ _ _ vote _) =>
                match retryLoop s next_cursor fuel with
                | .done outs => .done (Out.broadcastVote vote :: outs)
                | other => other
            | some _ => .fatal .wrongStateInRetry

/-- `retry_broadcasting_commit_votes` (lines 379-403): run the loop from the
buffer head.  The loop never mutates the manager state. -/
def StateManager.retry_broadcasting_commit_votes (s : StateManager)
    (fuel : Nat) : RetryResult :=
  retryLoop s s.buffer.head fuel

/-! ### The event-loop arms (`start`, lines 405-449)

Each `tokio::select!` arm is a handler invocation followed by its
post-actions; an arm is modelled as a function from the manager state and the
received event to the new state and the emissions of the whole arm. -/

namespace StateManager

/-- The ordered-blocks arm (lines 412-417): `process_ordered_blocks`, then
`advance_execution_root` when the execution root is absent. -/
def armBlocks (s : StateManager) (ob : OrderedBlocks) : StateManager × List Out :=
  let s1 := s.process_ordered_blocks ob
  if s1.execution_root.isNone then
    s1.advance_execution_root
  else
    (s1, [])

/-- The sync arm (lines 418-426): `process_sync_request`, then advance each
root that is absent. -/
def armSync (s : StateManager) (req : SyncRequest) :
    Except Fatal (StateManager × List Out) :=
  match s.process_sync_request req with
  | .error e => .error e
  | .ok (s1, outs1) =>
      let (s2, outs2) :=
        if s1.execution_root.isNone then s1.advance_execution_root else (s1, [])
      if s2.signing_root.isNone then
        match s2.advance_signing_root with
        | .error e => .error e
        | .ok (s3, outs3) => .ok (s3, outs1 ++ outs2 ++ outs3)
      else
        .ok (s2, outs1 ++ outs2)

/-- The execution-response arm (lines 427-433): `process_execution_response`,
always `advance_execution_root`, then `advance_signing_root` when the signing
root is absent. -/
def armExecResp (s : StateManager) (resp : ExecutionResponse) :
    Except Fatal (StateManager × List Out) :=
  match s.process_execution_response resp with
  | .error e => .error e
  | .ok s1 =>
      let (s2, outs2) := s1.advance_execution_root
      if s2.signing_root.isNone then
        match s2.advance_signing_root with
        | .error e => .error e
        | .ok (s3, outs3) => .ok (s3, outs2 ++ outs3)
      else
        .ok (s2, outs2)

/-- The signing-response arm (lines 434-437): `process_signing_response`,
then always `advance_signing_root`. -/
def armSignResp (s : StateManager) (resp : SigningResponse) :
    Except Fatal (StateManager × List Out) :=
  let (s1, outs1) := s.process_signing_response resp
  match s1.advance_signing_root with
  | .error e => .error e
  | .ok (s2, outs2) => .ok (s2, outs1 ++ outs2)

/-- The commit-vote arm (lines 438-442): `process_commit_message`, then
`advance_head` when an item became Aggregated. -/
def armCommit (s : StateManager) (vote : CommitVote) :
    Except Fatal (StateManager × List Out) :=
  let (s1, aggregated) := s.process_commit_message vote
  match aggregated with
  | none => .ok (s1, [])
  | some k =>
      match s1.advance_head (some k) with
      | .error e => .error e
      | .ok (s2, outs) => .ok (s2, outs)

/-- The timer arm (lines 443-445): retry broadcasting; the state is
untouched. -/
def armRetry (s : StateManager) (fuel : Nat) :
    Option (Except Fatal (StateManager × List Out)) :=
  match s.retry_broadcasting_commit_votes fuel with
  | .outOfFuel => none
  | .fatal e => some (.error e)
  | .done outs => some (.ok (s, outs))

end StateManager

/-! ## Derived notions used by the statements -/

/-- Classifiers on outbound emissions. -/
def Out.isExecReq : Out → Bool
  | .execReq _ => true
  | _ => false

def Out.isSignReq : Out → Bool
  | .signReq _ _ => true
  | _ => false

def Out.isPersistReq : Out → Bool
  | .persistReq .. => true
  | _ => false

def Out.isBroadcastVote : Out → Bool
  | .broadcastVote _ => true
  | _ => false

/-- The concatenation of the block lists of a sequence of items (the blocks a
pop of that sequence accumulates). -/
def concatBlocks : List BufferItem → List ExecutedBlock
  | [] => []
  | it :: rest => it.get_blocks ++ concatBlocks rest

/-- No item of the buffer is in the Aggregated state. -/
def NoAggregated (b : BufferList) : Prop :=
  ∀ it ∈ b.items, it.is_aggregated = false

instance (b : BufferList) : Decidable (NoAggregated b) :=
  inferInstanceAs (Decidable (∀ it ∈ b.items, it.is_aggregated = false))

/-- Ordered-ness is upward closed along the buffer: an item following an
Ordered item is itself Ordered (the pipeline shape invariant: items in the
Executed/Signed states always form a prefix). -/
def ShapeOrderedUpClosed (b : BufferList) : Prop :=
  ∀ j, j < b.items.length → ∀ i, i ≤ j →
    (b.items.getD i default).is_ordered = true →
    (b.items.getD j default).is_ordered = true

instance (b : BufferList) : Decidable (ShapeOrderedUpClosed b) :=
  inferInstanceAs (Decidable (∀ j, j < b.items.length → ∀ i, i ≤ j → _))

/-- The execution root, when present, points to a live slot holding an
Ordered item (the spec's cursor invariant). -/
def ExecRootOrdered (s : StateManager) : Prop :=
  s.execution_root.elim True
    (fun k => ((s.buffer.get? k).elim false BufferItem.is_ordered) = true)

instance (s : StateManager) : Decidable (ExecRootOrdered s) :=
  match hr : s.execution_root with
  | none => isTrue (by simp [ExecRootOrdered, hr])
  | some k => decidable_of_iff
      ((s.buffer.get? k).elim false BufferItem.is_ordered = true)
      (by simp [ExecRootOrdered, hr])

/-- No item strictly before absolute slot `c` satisfies the predicate. -/
def NoneSatBefore (b : BufferList) (c : Nat) (p : BufferItem → Bool) : Prop :=
  ∀ j, j < b.items.length → b.off + j < c → p (b.items.getD j default) = false

instance (b : BufferList) (c : Nat) (p : BufferItem → Bool) :
    Decidable (NoneSatBefore b c p) :=
  inferInstanceAs (Decidable (∀ j, j < b.items.length → b.off + j < c → _))

instance optionElimDecidable (o : Option Nat) (P : Nat → Prop)
    [inst : ∀ c, Decidable (P c)] : Decidable (o.elim True P) :=
  match o with
  | none => isTrue (by simp)
  | some c => decidable_of_iff (P c) (by simp)

/-- The scan-start cursor of `advance_execution_root` /
`advance_signing_root`: the root when present, otherwise the buffer head. -/
def scanCursor (root : Option Nat) (b : BufferList) : Option Nat :=
  root.orElse (fun _ => b.head)

/-- Every Executed item of the buffer carries a nonempty executed-block list
(well-formedness used by the signing path's `last().unwrap()`). -/
def ExecutedNonempty (b : BufferList) : Prop :=
  ∀ it ∈ b.items, it.is_executed = true → it.get_blocks ≠ []

instance (b : BufferList) : Decidable (ExecutedNonempty b) :=
  inferInstanceAs (Decidable (∀ it ∈ b.items, it.is_executed = true → it.get_blocks ≠ []))

/-! ## Concrete fixtures

Four validators `0,1,2,3` of equal power with quorum 3; local author `0`.
Blocks `exB1`, `exB2`, `exB3` with ids 1, 2, 3. -/

def exVerifier : ValidatorVerifier :=
  { voting_power := fun _ => 1, quorum := 3, sig_ok := fun _ _ _ => true }

def exB1 : ExecutedBlock := ⟨⟨1, 0⟩⟩
def exB2 : ExecutedBlock := ⟨⟨2, 0⟩⟩
def exB3 : ExecutedBlock := ⟨⟨3, 0⟩⟩

/-- An ordered proof; its content is irrelevant beyond the data hash. -/
def exProof : LedgerInfoWithSignatures := ⟨⟨⟨9, 9⟩, 7⟩, []⟩

def exLI1 : LedgerInfo := ⟨⟨1, 0⟩, 7⟩
def exLI2 : LedgerInfo := ⟨⟨2, 0⟩, 7⟩

/-- A manager state over the fixture verifier. -/
def mkState (b : BufferList) (er sr : Option Nat) : StateManager :=
  { author := 0, buffer := b, execution_root := er, signing_root := sr,
    end_epoch := false, verifier := exVerifier }

def exOrd1 : BufferItem := .ordered [exB1] exProof 11
def exExec1 : BufferItem := .executed [exB1] exProof 11
def exExec2 : BufferItem := .executed [exB2] exProof 22
def exOrd3 : BufferItem := .ordered [exB3] exProof 33

/-- B1 Signed, with votes from validators 0 and 1. -/
def exSigned1 : BufferItem :=
  .signed [exB1] exProof 11 ⟨0, exLI1, 5⟩ [(0, 5), (1, 5)]

/-- B2 Signed, with votes from validators 0 and 1 (one short of quorum). -/
def exSigned2 : BufferItem :=
  .signed [exB2] exProof 22 ⟨0, exLI2, 5⟩ [(0, 5), (1, 5)]

def exAgg1 : BufferItem := .aggregated [exB1] exProof 11

/-- C1: two Signed items buffered; validator 2's vote for B2 completes B2's
quorum while B1 is still Signed. -/
def c1State : StateManager := mkState ⟨0, [exSigned1, exSigned2]⟩ none none
def c1Vote : CommitVote := ⟨2, exLI2, 5⟩
def c1AggProof : LedgerInfoWithSignatures := ⟨exLI2, [(0, 5), (1, 5), (2, 5)]⟩

/-- C1 witness: an Executed item ahead of an Aggregated one. -/
def c1wAgg2 : BufferItem := .aggregated [exB2] c1AggProof 22
def c1wState : StateManager := mkState ⟨0, [exExec1, c1wAgg2]⟩ none none

/-- C2: a buffer whose head is Aggregated while the signing root is absent. -/
def c2State : StateManager := mkState ⟨0, [exAgg1]⟩ none none

/-- C3: both roots present. -/
def c3State : StateManager := mkState ⟨0, [exSigned1]⟩ (some 0) (some 0)
def c3ReconfigReq : SyncRequest := ⟨exProof, true⟩
/-- C3 witness: a non-reconfig request for a block id absent from the buffer. -/
def c3wReq : SyncRequest := ⟨⟨⟨⟨100, 0⟩, 7⟩, []⟩, false⟩
def c3wState2 : StateManager := c3State.reset_all_roots

/-- C4: an Ordered item with absent roots; a reconfig request still triggers
the arm's root advance. -/
def c4State : StateManager := mkState ⟨0, [exOrd1]⟩ none none
def c4Req : SyncRequest := ⟨exProof, true⟩

/-- The state the sync arm produces from `c4State` on the reconfig request. -/
def c4State2 : StateManager :=
  { author := 0, buffer := ⟨0, [exOrd1]⟩, execution_root := some 0,
    signing_root := none, end_epoch := true, verifier := exVerifier }

/-- C5: an Executed item at the signing root; the signing response fails. -/
def c5State : StateManager := mkState ⟨0, [exExec1]⟩ none (some 0)
def c5Resp : SigningResponse := ⟨.error (), exLI1⟩

/-- C6: a vote whose commit info has the matched item's block id but a
different payload, so `add_signature_if_matched` fails. -/
def c6State : StateManager := mkState ⟨0, [exSigned1, exSigned2]⟩ none none
def c6Vote : CommitVote := ⟨3, ⟨⟨1, 99⟩, 7⟩, 5⟩

/-- C7: one Ordered item at the execution root and its execution response. -/
def c7State : StateManager := mkState ⟨0, [exOrd1]⟩ (some 0) none
def c7Resp : ExecutionResponse := ⟨.ok [exB1]⟩

/-- C8: a Signed, an Executed and an Ordered item, with each root on the
first item of its predicate state. -/
def c8State : StateManager :=
  mkState ⟨0, [exSigned1, exExec2, exOrd3]⟩ (some 2) (some 1)

/-- C9: replaying the same Ordered-blocks event twice. -/
def c9Ob : OrderedBlocks := ⟨[exB1], exProof, 11⟩
def c9State : StateManager :=
  ((mkState ⟨0, []⟩ none none).process_ordered_blocks c9Ob).process_ordered_blocks c9Ob

/-- C10: a Signed item (no Aggregated items anywhere). -/
def c10State : StateManager := mkState ⟨0, [exSigned1]⟩ none none
def c10Ob : OrderedBlocks := ⟨[exB2], exProof, 22⟩

/-! ## Helper lemmas -/

lemma getElem?_append_middle {α : Type} (l1 l2 : List α) (a : α) :
    (l1 ++ a :: l2)[l1.length]? = some a := by
  induction l1 with
  | nil => simp
  | cons x xs ih => simpa using ih

lemma getElem?_append_after {α : Type} (l1 l2 : List α) (a : α) (i : Nat) :
    (l1 ++ a :: l2)[l1.length + 1 + i]? = l2[i]? := by
  induction l1 with
  | nil =>
      rw [List.nil_append, List.length_nil, Nat.zero_add, Nat.add_comm]
      simp
  | cons x xs ih =>
      have heq : x :: xs ++ a :: l2 = x :: (xs ++ a :: l2) := rfl
      have harith : (x :: xs).length + 1 + i = (xs.length + 1 + i) + 1 := by
        simp [List.length_cons]
        omega
      rw [heq, harith]
      simpa using ih

lemma set_of_getElem? {α : Type} (l : List α) (n : Nat) (a : α)
    (h : l[n]? = some a) : l.set n a = l := by
  induction l generalizing n with
  | nil => simp at h
  | cons x xs ih =>
      cases n with
      | zero =>
          simp at h
          simp [h]
      | succ m =>
          simp at h ⊢
          exact ih m h

lemma getD_of_getElem? {α : Type} [Inhabited α] (l : List α) (n : Nat) (a : α)
    (h : l[n]? = some a) : l.getD n default = a := by
  induction l generalizing n with
  | nil => simp at h
  | cons x xs ih =>
      cases n with
      | zero =>
          simp at h
          simp [List.getD, h]
      | succ m =>
          simp at h
          simpa [List.getD] using ih m h

lemma scanFind_none_iff (p : BufferItem → Bool) (l : List BufferItem) :
    BufferList.scanFind p l = none ↔ ∀ x ∈ l, p x = false := by
  induction l with
  | nil => simp [BufferList.scanFind]
  | cons x xs ih =>
      by_cases hx : p x
      · simp [BufferList.scanFind, hx]
      · simp [BufferList.scanFind, hx, ih]

lemma scanFind_some_spec (p : BufferItem → Bool) (l : List BufferItem) (j : Nat)
    (h : BufferList.scanFind p l = some j) :
    (∃ it, l[j]? = some it ∧ p it = true) ∧
      ∀ i, i < j → ∀ it2, l[i]? = some it2 → p it2 = false := by
  induction l generalizing j with
  | nil => simp [BufferList.scanFind] at h
  | cons x xs ih =>
      by_cases hx : p x
      · simp [BufferList.scanFind, hx] at h
        subst h
        refine ⟨⟨x, by simp, hx⟩, ?_⟩
        intro i hi
        exact absurd hi (Nat.not_lt_zero i)
      · simp [BufferList.scanFind, hx] at h
        obtain ⟨j0, hj0, rfl⟩ := h
        obtain ⟨⟨it, hget, hp⟩, hmin⟩ := ih j0 hj0
        refine ⟨⟨it, by simpa using hget, hp⟩, ?_⟩
        intro i hi it2 hget2
        cases i with
        | zero =>
            simp at hget2
            subst hget2
            simpa using hx
        | succ i0 =>
            simp at hget2
            exact hmin i0 (by omega) it2 hget2

lemma scanFind_le_of_sat (p : BufferItem → Bool) (l : List BufferItem) (k : Nat)
    (it : BufferItem) (hget : l[k]? = some it) (hp : p it = true) :
    ∃ j, BufferList.scanFind p l = some j ∧ j ≤ k := by
  induction l generalizing k with
  | nil => simp at hget
  | cons x xs ih =>
      by_cases hx : p x
      · exact ⟨0, by simp [BufferList.scanFind, hx], Nat.zero_le _⟩
      · cases k with
        | zero =>
            simp at hget
            subst hget
            simp [hp] at hx
        | succ k0 =>
            simp at hget
            obtain ⟨j0, hj0, hle⟩ := ih k0 hget
            exact ⟨j0 + 1, by simp [BufferList.scanFind, hx, hj0], by omega⟩

lemma find_elem_some_spec (b : BufferList) (k m : Nat) (p : BufferItem → Bool)
    (h : b.find_elem (some k) p = some m) :
    b.off + (k - b.off) ≤ m ∧
    (∃ it, b.get? m = some it ∧ p it = true) ∧
    ∀ i, b.off + (k - b.off) ≤ i → i < m → ∀ it2, b.get? i = some it2 →
      p it2 = false := by
  unfold BufferList.find_elem at h
  simp only [Option.map_eq_some'] at h
  obtain ⟨j, hj, hm⟩ := h
  obtain ⟨⟨it, hget, hp⟩, hmin⟩ := scanFind_some_spec p _ j hj
  rw [List.getElem?_drop] at hget
  subst hm
  refine ⟨by omega, ⟨it, ?_, hp⟩, ?_⟩
  · unfold BufferList.get?
    rw [if_neg (by omega)]
    have harith : b.off + (k - b.off) + j - b.off = k - b.off + j := by omega
    rw [harith]
    exact hget
  · intro i hlo hhi it2 hget2
    unfold BufferList.get? at hget2
    rw [if_neg (by omega)] at hget2
    have harith : i - b.off = (k - b.off) + (i - b.off - (k - b.off)) := by omega
    rw [harith, ← List.getElem?_drop] at hget2
    exact hmin (i - b.off - (k - b.off)) (by omega) it2 hget2

lemma find_elem_some_of_sat (b : BufferList) (k q : Nat) (it : BufferItem)
    (p : BufferItem → Bool) (hget : b.get? q = some it) (hp : p it = true)
    (hq : b.off + (k - b.off) ≤ q) :
    ∃ m, b.find_elem (some k) p = some m ∧ m ≤ q := by
  unfold BufferList.get? at hget
  by_cases hqo : q < b.off
  · rw [if_pos hqo] at hget
    exact absurd hget (by simp)
  · rw [if_neg hqo] at hget
    have harith : q - b.off = (k - b.off) + (q - b.off - (k - b.off)) := by omega
    rw [harith, ← List.getElem?_drop] at hget
    obtain ⟨j, hj, hle⟩ := scanFind_le_of_sat p _ _ it hget hp
    refine ⟨b.off + (k - b.off) + j, ?_, by omega⟩
    unfold BufferList.find_elem
    simp [hj]

lemma find_elem_none_spec (b : BufferList) (k : Nat) (p : BufferItem → Bool)
    (h : b.find_elem (some k) p = none) :
    ∀ q it, b.get? q = some it → b.off + (k - b.off) ≤ q → p it = false := by
  intro q it hget hq
  unfold BufferList.find_elem at h
  simp only [Option.map_eq_none'] at h
  rw [scanFind_none_iff] at h
  unfold BufferList.get? at hget
  rw [if_neg (by omega)] at hget
  have harith : q - b.off = (k - b.off) + (q - b.off - (k - b.off)) := by omega
  rw [harith, ← List.getElem?_drop] at hget
  exact h it (List.getElem?_mem hget)

lemma set_elem_same (b : BufferList) (k : Nat) (it : BufferItem)
    (h : b.get? k = some it) : b.set_elem k it = b := by
  unfold BufferList.get? at h
  by_cases hk : k < b.off
  · rw [if_pos hk] at h
    exact absurd h (by simp)
  · rw [if_neg hk] at h
    unfold BufferList.set_elem
    rw [set_of_getElem? _ _ _ h]

lemma popLoop_append (t : Nat) (pre post : List BufferItem)
    (bs : List ExecutedBlock) (proof : LedgerInfoWithSignatures) (cb : Nat)
    (acc : List ExecutedBlock)
    (hids : ∀ x ∈ pre, x.block_id ≠ t)
    (ht : (BufferItem.aggregated bs proof cb).block_id = t) :
    StateManager.popLoop t (pre ++ BufferItem.aggregated bs proof cb :: post) acc =
      .ok (post, proof, cb, acc ++ concatBlocks pre ++ bs) := by
  induction pre generalizing acc with
  | nil =>
      simp [StateManager.popLoop, ht, concatBlocks, BufferItem.get_blocks,
        BufferItem.agg_data]
  | cons x xs ih =>
      have hx : ¬ (x.block_id = t) := hids x (List.mem_cons_self x xs)
      have hids2 : ∀ y ∈ xs, y.block_id ≠ t :=
        fun y hy => hids y (List.mem_cons_of_mem x hy)
      rw [List.cons_append]
      have hstep : StateManager.popLoop t
          (x :: (xs ++ BufferItem.aggregated bs proof cb :: post)) acc =
          StateManager.popLoop t (xs ++ BufferItem.aggregated bs proof cb :: post)
            (acc ++ x.get_blocks) := by
        simp only [StateManager.popLoop, if_neg hx]
      rw [hstep, ih _ hids2]
      simp [concatBlocks, List.append_assoc]

lemma popLoop_ok_split (t : Nat) (l : List BufferItem)
    (acc : List ExecutedBlock) (rest : List BufferItem)
    (proof : LedgerInfoWithSignatures) (cb : Nat) (blocks : List ExecutedBlock)
    (h : StateManager.popLoop t l acc = .ok (rest, proof, cb, blocks)) :
    ∃ l1 bs2, l = l1 ++ BufferItem.aggregated bs2 proof cb :: rest := by
  induction l generalizing acc with
  | nil => simp [StateManager.popLoop] at h
  | cons x xs ih =>
      simp only [StateManager.popLoop] at h
      by_cases hx : x.block_id = t
      · rw [if_pos hx] at h
        cases x with
        | aggregated bs2 proof2 cb2 =>
            simp [BufferItem.agg_data] at h
            obtain ⟨hrest, hproof, hcb, _⟩ := h
            exact ⟨[], bs2, by rw [hrest, hproof, hcb]; rfl⟩
        | ordered a b c => simp [BufferItem.agg_data] at h
        | executed a b c => simp [BufferItem.agg_data] at h
        | signed a b c d e => simp [BufferItem.agg_data] at h
      · rw [if_neg hx] at h
        obtain ⟨l1, bs2, hsplit⟩ := ih _ h
        exact ⟨x :: l1, bs2, by rw [hsplit]; rfl⟩

lemma advance_execution_root_shape (s : StateManager) :
    (s.advance_execution_root).1.end_epoch = s.end_epoch ∧
    (s.advance_execution_root).1.buffer = s.buffer ∧
    (s.advance_execution_root).1.signing_root = s.signing_root ∧
    ((s.advance_execution_root).2 = [] ∨
      ∃ bs, (s.advance_execution_root).2 = [Out.execReq bs]) := by
  simp only [StateManager.advance_execution_root]
  split
  · exact ⟨rfl, rfl, rfl, Or.inl rfl⟩
  · split
    · exact ⟨rfl, rfl, rfl, Or.inl rfl⟩
    · exact ⟨rfl, rfl, rfl, Or.inr ⟨_, rfl⟩⟩

lemma advance_execution_root_root (s : StateManager) :
    (s.advance_execution_root).1.execution_root =
      s.buffer.find_elem (s.execution_root.orElse fun _ => s.buffer.head)
        (fun it => it.is_ordered) := by
  simp only [StateManager.advance_execution_root]
  split
  · simp_all
  · split
    · simp_all
    · simp_all

lemma advance_signing_root_shape (s s2 : StateManager) (outs : List Out)
    (h : s.advance_signing_root = .ok (s2, outs)) :
    s2.end_epoch = s.end_epoch ∧ s2.buffer = s.buffer ∧
    s2.execution_root = s.execution_root ∧
    s2.signing_root =
      s.buffer.find_elem (s.signing_root.orElse fun _ => s.buffer.head)
        (fun it => it.is_executed) ∧
    (outs = [] ∨ ∃ p li, outs = [Out.signReq p li]) := by
  simp only [StateManager.advance_signing_root] at h
  split at h
  · rename_i hfind
    simp at h
    obtain ⟨hs2, houts⟩ := h
    subst hs2
    subst houts
    refine ⟨rfl, rfl, rfl, ?_, Or.inl rfl⟩
    rw [hfind]
  · split at h
    · simp at h
    · split at h
      · simp at h
      · simp at h
        obtain ⟨hs2, houts⟩ := h
        subst hs2
        subst houts
        exact ⟨rfl, rfl, rfl, rfl, Or.inr ⟨_, _, rfl⟩⟩
    · simp at h

lemma getElem?_lt_length {α : Type} (l : List α) (n : Nat) (a : α)
    (h : l[n]? = some a) : n < l.length := by
  by_contra hc
  rw [List.getElem?_eq_none (by omega)] at h
  exact absurd h (by simp)

lemma get?_off_le (b : BufferList) (q : Nat) (it : BufferItem)
    (h : b.get? q = some it) : b.off ≤ q := by
  unfold BufferList.get? at h
  by_cases hq : q < b.off
  · rw [if_pos hq] at h
    exact absurd h (by simp)
  · omega

lemma head_of_get? (b : BufferList) (q : Nat) (it : BufferItem)
    (h : b.get? q = some it) : b.head = some b.off := by
  unfold BufferList.get? at h
  by_cases hq : q < b.off
  · rw [if_pos hq] at h
    exact absurd h (by simp)
  · rw [if_neg hq] at h
    have hlen : q - b.off < b.items.length := by
      by_contra hc
      rw [List.getElem?_eq_none (by omega)] at h
      exact absurd h (by simp)
    unfold BufferList.head
    rw [if_neg (by simp [List.isEmpty_iff]; intro he; rw [he] at hlen; simp at hlen)]

lemma getElem?_set_ne2 {α : Type} (l : List α) (m n : Nat) (a : α)
    (h : n ≠ m) : (l.set m a)[n]? = l[n]? := by
  induction l generalizing m n with
  | nil => simp
  | cons x xs ih =>
      cases m with
      | zero =>
          cases n with
          | zero => omega
          | succ n0 => simp [List.set]
      | succ m0 =>
          cases n with
          | zero => simp [List.set]
          | succ n0 =>
              simp only [List.set, List.getElem?_cons_succ]
              exact ih m0 n0 (by omega)

lemma noAgg_set (l : List BufferItem) (idx : Nat) (newIt : BufferItem)
    (hl : ∀ x ∈ l, x.is_aggregated = false)
    (hn : newIt.is_aggregated = false) :
    ∀ x ∈ l.set idx newIt, x.is_aggregated = false := by
  intro x hx
  rcases List.mem_or_eq_of_mem_set hx with hmem | heq
  · exact hl x hmem
  · rw [heq]
    exact hn

lemma popLoop_set_rest_noAgg (t : Nat) (acc : List ExecutedBlock)
    (orig : List BufferItem) (idx : Nat) (newIt : BufferItem)
    (horig : ∀ x ∈ orig, x.is_aggregated = false)
    (rest : List BufferItem) (proof : LedgerInfoWithSignatures) (cb : Nat)
    (blocks : List ExecutedBlock)
    (h : StateManager.popLoop t (orig.set idx newIt) acc =
      .ok (rest, proof, cb, blocks)) :
    ∀ x ∈ rest, x.is_aggregated = false := by
  obtain ⟨l1, bs2, hsplit⟩ := popLoop_ok_split t _ acc rest proof cb blocks h
  by_cases hidx : idx < orig.length
  · by_cases hpos : l1.length = idx
    · intro x hx
      obtain ⟨i, hi⟩ := List.mem_iff_get?.mp hx
      rw [List.get?_eq_getElem?] at hi
      have h1 : (orig.set idx newIt)[l1.length + 1 + i]? = some x := by
        rw [hsplit]
        rw [getElem?_append_after]
        exact hi
      have h2 : orig[l1.length + 1 + i]? = some x := by
        rw [← getElem?_set_ne2 orig idx (l1.length + 1 + i) newIt (by omega)]
        exact h1
      exact horig x (List.getElem?_mem h2)
    · exfalso
      have h1 : (orig.set idx newIt)[l1.length]? =
          some (BufferItem.aggregated bs2 proof cb) := by
        rw [hsplit]
        exact getElem?_append_middle _ _ _
      have h2 : orig[l1.length]? = some (BufferItem.aggregated bs2 proof cb) := by
        rw [← getElem?_set_ne2 orig idx l1.length newIt hpos]
        exact h1
      have := horig _ (List.getElem?_mem h2)
      simp [BufferItem.is_aggregated] at this
  · exfalso
    have hseteq : orig.set idx newIt = orig := List.set_eq_of_length_le (by omega)
    rw [hseteq] at hsplit
    have hmem : BufferItem.aggregated bs2 proof cb ∈ orig := by
      rw [hsplit]
      simp
    have := horig _ hmem
    simp [BufferItem.is_aggregated] at this

lemma advance_head_ok_noAgg (s s2 : StateManager) (outs : List Out)
    (c : Option Nat) (orig : List BufferItem) (idx : Nat) (newIt : BufferItem)
    (horig : ∀ x ∈ orig, x.is_aggregated = false)
    (hbuf : s.buffer.items = orig.set idx newIt)
    (h : s.advance_head c = .ok (s2, outs)) :
    NoAggregated s2.buffer := by
  simp only [StateManager.advance_head] at h
  split at h
  · simp at h
  · split at h
    · simp at h
    · split at h
      · simp at h
      · split at h
        · simp at h
        · rename_i rest proof cb blocks hpop
          simp at h
          obtain ⟨hs2, -⟩ := h
          subst hs2
          intro x hx
          exact popLoop_set_rest_noAgg _ [] orig idx newIt horig
            rest proof cb blocks (by rw [← hbuf]; exact hpop) x hx

lemma advance_to_executed_agg (it : BufferItem) (bs : List ExecutedBlock) :
    (it.advance_to_executed bs).is_aggregated = it.is_aggregated := by
  cases it <;> rfl

lemma advance_to_signed_agg (it : BufferItem) (a : Author) (sg : Sig)
    (v : ValidatorVerifier) :
    ((it.advance_to_signed a sg v).1).is_aggregated = it.is_aggregated := by
  cases it <;> rfl

lemma agg_false_of_ordered (it : BufferItem) (h : it.is_ordered = true) :
    it.is_aggregated = false := by
  cases it <;> simp_all [BufferItem.is_ordered, BufferItem.is_aggregated]

lemma agg_false_of_executed (it : BufferItem) (h : it.is_executed = true) :
    it.is_aggregated = false := by
  cases it <;> simp_all [BufferItem.is_executed, BufferItem.is_aggregated]

lemma set_elem_noAgg (b : BufferList) (k : Nat) (newIt : BufferItem)
    (hna : NoAggregated b) (hn : newIt.is_aggregated = false) :
    NoAggregated (b.set_elem k newIt) := by
  intro x hx
  exact noAgg_set b.items (k - b.off) newIt hna hn x hx

lemma process_sync_request_noAgg (s s1 : StateManager) (req : SyncRequest)
    (outs1 : List Out) (hna : NoAggregated s.buffer)
    (h : s.process_sync_request req = .ok (s1, outs1)) :
    NoAggregated s1.buffer := by
  simp only [StateManager.process_sync_request] at h
  split at h
  · simp at h
    obtain ⟨hs1, -⟩ := h
    subst hs1
    exact hna
  · split at h
    · simp at h
      obtain ⟨hs1, -⟩ := h
      subst hs1
      exact hna
    · split at h
      · simp at h
      · split at h
        · split at h
          · simp at h
          · rename_i hah
            simp at h
            obtain ⟨hs1, -⟩ := h
            subst hs1
            have h2 := advance_head_ok_noAgg _ _ _ _ s.buffer.items _ _ hna rfl hah
            exact h2
        · rename_i hnotagg
          simp at h
          obtain ⟨hs1, -⟩ := h
          subst hs1
          rw [Bool.not_eq_true] at hnotagg
          exact set_elem_noAgg _ _ _ hna hnotagg

lemma process_execution_response_noAgg (s s1 : StateManager)
    (resp : ExecutionResponse) (hna : NoAggregated s.buffer)
    (h : s.process_execution_response resp = .ok s1) :
    NoAggregated s1.buffer := by
  simp only [StateManager.process_execution_response] at h
  split at h
  · simp at h
  · split at h
    · simp at h
    · split at h
      · simp at h
        subst h
        exact hna
      · split at h
        · simp at h
        · split at h
          · simp at h
          · rename_i hord
            simp at h
            subst h
            refine set_elem_noAgg _ _ _ hna ?_
            rw [advance_to_executed_agg]
            simp at hord
            exact agg_false_of_ordered _ hord

lemma process_signing_response_noAgg (s : StateManager)
    (resp : SigningResponse) (hna : NoAggregated s.buffer) :
    NoAggregated (s.process_signing_response resp).1.buffer := by
  simp only [StateManager.process_signing_response]
  split
  · exact hna
  · split
    · exact hna
    · split
      · exact hna
      · split
        · rename_i hexec2
          refine set_elem_noAgg _ _ _ hna ?_
          rw [advance_to_signed_agg]
          exact agg_false_of_executed _ hexec2
        · exact hna

lemma process_commit_message_noAgg (s s1 : StateManager) (vote : CommitVote)
    (r : Option Nat) (hna : NoAggregated s.buffer)
    (h : s.process_commit_message vote = (s1, r)) :
    (r = none → NoAggregated s1.buffer) ∧
    (∀ k, r = some k → ∃ newIt,
      s1.buffer.items = s.buffer.items.set (k - s.buffer.off) newIt) := by
  simp only [StateManager.process_commit_message] at h
  split at h
  · simp at h
    obtain ⟨hs1, hr⟩ := h
    subst hs1
    subst hr
    exact ⟨fun _ => hna, fun k hk => by simp at hk⟩
  · split at h
    · simp at h
      obtain ⟨hs1, hr⟩ := h
      subst hs1
      subst hr
      exact ⟨fun _ => hna, fun k hk => by simp at hk⟩
    · split at h
      · simp at h
        obtain ⟨hs1, hr⟩ := h
        subst hs1
        subst hr
        refine ⟨fun hnone => by simp at hnone, ?_⟩
        intro k2 hk2
        simp at hk2
        subst hk2
        exact ⟨_, rfl⟩
      · rename_i hnotagg
        simp at h
        obtain ⟨hs1, hr⟩ := h
        subst hs1
        subst hr
        refine ⟨fun _ => ?_, fun k2 hk2 => by simp at hk2⟩
        rw [Bool.not_eq_true] at hnotagg
        exact set_elem_noAgg _ _ _ hna hnotagg

/-! ## Claim theorems -/

/-- C1, counterexample: with B1 and B2 both Signed, the commit-vote arm for a
vote completing B2's quorum emits a persistence request containing B1's and
B2's blocks even though B1 (the first popped, intermediate item) is not
Aggregated — the operation does not fail and a persistence request is
produced. -/
theorem c1_counterexample :
    (c1State.buffer.get? 0).map BufferItem.is_signed = some true ∧
    (StateManager.armCommit c1State c1Vote).map Prod.snd =
      Except.ok [Out.persistReq [exB1, exB2] c1AggProof 22] :=
  ⟨rfl, rfl⟩

/-- C1, amended: `advance_head` pops every item from the head up to the first
item carrying the target block id, accumulating all their blocks into a
single persistence request, with no requirement on the states of the
intermediate popped items; only the final (target) item must be
Aggregated. -/
theorem c1_advance_head_pops_any_prefix (s : StateManager) (k : Nat)
    (pre post : List BufferItem) (bs : List ExecutedBlock)
    (proof : LedgerInfoWithSignatures) (cb : Nat)
    (hitems : s.buffer.items = pre ++ BufferItem.aggregated bs proof cb :: post)
    (hk : k = s.buffer.off + pre.length)
    (hids : ∀ x ∈ pre, x.block_id ≠ (BufferItem.aggregated bs proof cb).block_id) :
    s.advance_head (some k) =
      .ok ({ s with buffer := ⟨s.buffer.off + pre.length + 1, post⟩ },
        [Out.persistReq (concatBlocks pre ++ bs) proof cb]) := by
  have hget : s.buffer.get? k = some (BufferItem.aggregated bs proof cb) := by
    unfold BufferList.get?
    rw [hk, if_neg (by omega)]
    have harith : s.buffer.off + pre.length - s.buffer.off = pre.length := by omega
    rw [harith, hitems]
    exact getElem?_append_middle pre post _
  have hlen : s.buffer.items.length - post.length = pre.length + 1 := by
    rw [hitems]
    simp
    omega
  simp only [StateManager.advance_head, hget]
  rw [hitems, popLoop_append _ _ _ _ _ _ _ hids rfl]
  simp only [BufferItem.is_aggregated, Bool.not_true, Bool.false_eq_true,
    if_false, List.nil_append]
  rw [← hitems, hlen]
  rfl

/-- C1, witness for the amended theorem: an Executed item ahead of an
Aggregated one is popped along with it into the persistence request. -/
theorem c1_witness :
    (∀ x ∈ [exExec1],
      x.block_id ≠ (BufferItem.aggregated [exB2] c1AggProof 22).block_id) ∧
    c1wState.advance_head (some 1) =
      .ok ({ c1wState with buffer := ⟨2, []⟩ },
        [Out.persistReq (concatBlocks [exExec1] ++ [exB2]) c1AggProof 22]) :=
  ⟨by decide,
   c1_advance_head_pops_any_prefix c1wState 1 [exExec1] [] [exB2] c1AggProof 22
     rfl rfl (by decide)⟩

/-- C2: the retry loop never terminates on a buffer whose head is an
Aggregated item (with the signing root absent): the `continue` on Aggregated
items does not advance the cursor, so for every fuel bound the loop is still
running — the code loops forever where the claim requires termination. -/
theorem c2_retry_diverges (fuel : Nat) :
    c2State.retry_broadcasting_commit_votes fuel = RetryResult.outOfFuel := by
  induction fuel with
  | zero => rfl
  | succ n ih => exact ih

/-- C3, counterexample: a reconfig sync request leaves both roots exactly as
they were (here `some 0`), refuting that both cursors are reset on every sync
request. -/
theorem c3_counterexample :
    (c3State.process_sync_request c3ReconfigReq).map
        (fun p => (p.1.execution_root, p.1.signing_root, p.1.end_epoch, p.2)) =
      Except.ok (some 0, some 0, true, [Out.ack]) :=
  rfl

/-- C4, counterexample: on a reconfig sync request the arm still advances the
absent execution root, emitting an execution request after the ack — an
outbound emission between handling the request and loop exit. -/
theorem c4_counterexample :
    (StateManager.armSync c4State c4Req).map (fun p => (p.1.end_epoch, p.2)) =
      Except.ok (true, [Out.ack, Out.execReq [exB1]]) :=
  rfl

/-- C3, amended: a non-reconfig sync request always resets both roots to
absent and acks last; a reconfig request leaves both roots untouched, raises
`end_epoch` and acks. -/
theorem c3_sync_cursor_reset (s s2 : StateManager) (req : SyncRequest)
    (outs : List Out) (h : s.process_sync_request req = .ok (s2, outs)) :
    (req.reconfig = false → s2.execution_root = none ∧ s2.signing_root = none ∧
      outs.getLast? = some Out.ack) ∧
    (req.reconfig = true → s2.execution_root = s.execution_root ∧
      s2.signing_root = s.signing_root ∧ s2.end_epoch = true ∧
      outs = [Out.ack]) := by
  simp only [StateManager.process_sync_request] at h
  split at h
  · rename_i hre
    simp at h
    obtain ⟨hs2, houts⟩ := h
    subst hs2
    subst houts
    refine ⟨fun hf => absurd hre (by simp [hf]), fun _ => ⟨rfl, rfl, rfl, rfl⟩⟩
  · rename_i hre
    have hre2 : req.reconfig = false := by
      revert hre
      cases req.reconfig <;> simp
    split at h
    · simp at h
      obtain ⟨hs2, houts⟩ := h
      subst hs2
      subst houts
      exact ⟨fun _ => ⟨rfl, rfl, rfl⟩, fun ht => absurd ht (by simp [hre2])⟩
    · split at h
      · simp at h
      · split at h
        · split at h
          · simp at h
          · simp at h
            obtain ⟨hs2, houts⟩ := h
            subst hs2
            subst houts
            refine ⟨fun _ => ⟨rfl, rfl, ?_⟩, fun ht => absurd ht (by simp [hre2])⟩
            exact List.getLast?_concat _
        · simp at h
          obtain ⟨hs2, houts⟩ := h
          subst hs2
          subst houts
          exact ⟨fun _ => ⟨rfl, rfl, rfl⟩, fun ht => absurd ht (by simp [hre2])⟩

/-- C3, witness: a non-reconfig request for an absent block id resets both
roots and acks. -/
theorem c3_witness :
    c3wState2.execution_root = none ∧ c3wState2.signing_root = none ∧
      ([Out.ack] : List Out).getLast? = some Out.ack :=
  (c3_sync_cursor_reset c3State c3wState2 c3wReq [Out.ack] rfl).1 rfl

/-- C4, amended: on a reconfig sync request the arm raises `end_epoch` (so
the loop exits at its next iteration) and acks first; the only further
emissions of the same arm are execution or signing requests from the root
advances — never a persistence request or a broadcast. -/
theorem c4_reconfig_behaviour (s s2 : StateManager) (req : SyncRequest)
    (outs : List Out) (hre : req.reconfig = true)
    (h : StateManager.armSync s req = .ok (s2, outs)) :
    s2.end_epoch = true ∧ outs.head? = some Out.ack ∧
      (∀ o ∈ outs.tail, o.isExecReq = true ∨ o.isSignReq = true) ∧
      (∀ o ∈ outs, o.isPersistReq = false ∧ o.isBroadcastVote = false) := by
  have hps : s.process_sync_request req =
      .ok ({ s with end_epoch := true }, [Out.ack]) := by
    simp [StateManager.process_sync_request, hre]
  simp only [StateManager.armSync, hps] at h
  rcases hpe : ({ s with end_epoch := true } : StateManager).advance_execution_root
    with ⟨ps, pouts⟩
  obtain ⟨hpend, -, -, hpouts⟩ := advance_execution_root_shape
    ({ s with end_epoch := true } : StateManager)
  rw [hpe] at hpend hpouts
  simp only at hpend hpouts
  have houts2 : ∀ s1 outs1, (if ({ s with end_epoch := true } :
      StateManager).execution_root.isNone then
        ({ s with end_epoch := true } : StateManager).advance_execution_root
      else ({ s with end_epoch := true }, [])) = (s1, outs1) →
      s1.end_epoch = true ∧ (outs1 = [] ∨ ∃ bs, outs1 = [Out.execReq bs]) := by
    intro s1 outs1 hif
    split at hif
    · rw [hpe] at hif
      cases hif
      exact ⟨hpend, hpouts⟩
    · cases hif
      exact ⟨rfl, Or.inl rfl⟩
  rcases hmid : (if ({ s with end_epoch := true } :
      StateManager).execution_root.isNone then
        ({ s with end_epoch := true } : StateManager).advance_execution_root
      else ({ s with end_epoch := true }, [])) with ⟨s1, outs1⟩
  obtain ⟨hs1end, hs1outs⟩ := houts2 s1 outs1 hmid
  rw [hmid] at h
  simp only at h
  split at h
  · split at h
    · simp at h
    · rename_i hsr
      simp at h
      obtain ⟨hs2, houtseq⟩ := h
      subst hs2
      subst houtseq
      obtain ⟨hsend, -, -, -, hsouts⟩ := advance_signing_root_shape _ _ _ hsr
      refine ⟨by rw [hsend, hs1end], rfl, ?_, ?_⟩
      · intro o ho
        simp only [List.tail_cons] at ho
        rcases List.mem_append.mp ho with hmem | hmem
        · rcases hs1outs with hnil | ⟨bs, hbs⟩
          · rw [hnil] at hmem
            simp at hmem
          · rw [hbs] at hmem
            simp at hmem
            subst hmem
            exact Or.inl rfl
        · rcases hsouts with hnil | ⟨p, li, hsl⟩
          · rw [hnil] at hmem
            simp at hmem
          · rw [hsl] at hmem
            simp at hmem
            subst hmem
            exact Or.inr rfl
      · intro o ho
        rcases ho with _ | ho2
        · exact ⟨rfl, rfl⟩
        · rename_i ho2
          rcases List.mem_append.mp ho2 with hmem | hmem
          · rcases hs1outs with hnil | ⟨bs, hbs⟩
            · rw [hnil] at hmem
              simp at hmem
            · rw [hbs] at hmem
              simp at hmem
              subst hmem
              exact ⟨rfl, rfl⟩
          · rcases hsouts with hnil | ⟨p, li, hsl⟩
            · rw [hnil] at hmem
              simp at hmem
            · rw [hsl] at hmem
              simp at hmem
              subst hmem
              exact ⟨rfl, rfl⟩
  · simp at h
    obtain ⟨hs2, houtseq⟩ := h
    subst hs2
    rcases hs1outs with hnil | ⟨bs, hbs⟩
    · subst hnil
      subst houtseq
      refine ⟨hs1end, rfl, ?_, ?_⟩
      · intro o ho
        simp at ho
      · intro o ho
        simp at ho
        subst ho
        exact ⟨rfl, rfl⟩
    · subst hbs
      subst houtseq
      refine ⟨hs1end, rfl, ?_, ?_⟩
      · intro o ho
        simp at ho
        subst ho
        exact Or.inl rfl
      · intro o ho
        simp at ho
        rcases ho with ho | ho <;> subst ho
        · exact ⟨rfl, rfl⟩
        · exact ⟨rfl, rfl⟩

/-- C4, witness: the amended behaviour at the concrete reconfig request. -/
theorem c4_witness :
    c4State2.end_epoch = true ∧
      ([Out.ack, Out.execReq [exB1]] : List Out).head? = some Out.ack ∧
      (∀ o ∈ ([Out.ack, Out.execReq [exB1]] : List Out).tail,
        o.isExecReq = true ∨ o.isSignReq = true) ∧
      (∀ o ∈ ([Out.ack, Out.execReq [exB1]] : List Out),
        o.isPersistReq = false ∧ o.isBroadcastVote = false) :=
  c4_reconfig_behaviour c4State c4State2 c4Req [Out.ack, Out.execReq [exB1]]
    rfl rfl

/-- C5: an error signing response leaves the buffer untouched and broadcasts
nothing, and the subsequent (unconditional) signing-root advance of the arm
cannot move the cursor past any Executed item at or after the scan start — in
particular not past the item the failed response referenced, which stays
Executed.  (The error logging itself is outside the model.) -/
theorem c5_signing_error_no_effect (s s2 : StateManager) (resp : SigningResponse)
    (outs : List Out) (e : Unit)
    (herr : resp.signature_result = .error e)
    (h : StateManager.armSignResp s resp = .ok (s2, outs)) :
    s2.buffer = s.buffer ∧
    (∀ o ∈ outs, o.isBroadcastVote = false) ∧
    (∀ q it, s.buffer.get? q = some it → it.is_executed = true →
      (∀ c, s.signing_root = some c →
        s.buffer.off + (c - s.buffer.off) ≤ q) →
      ∃ m, s2.signing_root = some m ∧ m ≤ q) := by
  have hproc : s.process_signing_response resp = (s, []) := by
    simp [StateManager.process_signing_response, herr]
  simp only [StateManager.armSignResp, hproc] at h
  split at h
  · simp at h
  · rename_i s2v outs2 hsr
    obtain ⟨-, hbuf, -, hroot, houts2⟩ := advance_signing_root_shape _ _ _ hsr
    simp at h
    obtain ⟨hs2, houtseq⟩ := h
    subst hs2
    subst houtseq
    refine ⟨hbuf, ?_, ?_⟩
    · intro o ho
      rcases houts2 with hnil | ⟨p, li, hsl⟩
      · rw [hnil] at ho
        simp at ho
      · rw [hsl] at ho
        simp at ho
        subst ho
        rfl
    · intro q it hget hexec hstart
      have hcursor : ∃ c, s.signing_root.orElse (fun _ => s.buffer.head) = some c ∧
          s.buffer.off + (c - s.buffer.off) ≤ q := by
        cases hc : s.signing_root with
        | none =>
            refine ⟨s.buffer.off, ?_, ?_⟩
            · simp [hc, Option.orElse, head_of_get? _ _ _ hget]
            · have := get?_off_le _ _ _ hget
              omega
        | some c =>
            exact ⟨c, by simp [hc, Option.orElse], hstart c hc⟩
      obtain ⟨c, hcur, hle⟩ := hcursor
      obtain ⟨m, hfind, hm⟩ :=
        find_elem_some_of_sat s.buffer c q it (fun x => x.is_executed) hget hexec hle
      refine ⟨m, ?_, hm⟩
      rw [hroot, hcur, hfind]

/-- C5, witness: the amended-free claim at the concrete failing signing
response over an Executed item at the signing root. -/
theorem c5_witness :
    c5Resp.signature_result = Except.error () ∧
    (c5State.buffer = c5State.buffer ∧
      (∀ o ∈ [Out.signReq exProof ⟨⟨1, 0⟩, 7⟩], o.isBroadcastVote = false) ∧
      (∀ q it, c5State.buffer.get? q = some it → it.is_executed = true →
        (∀ c, c5State.signing_root = some c →
          c5State.buffer.off + (c - c5State.buffer.off) ≤ q) →
        ∃ m, c5State.signing_root = some m ∧ m ≤ q)) :=
  ⟨rfl, c5_signing_error_no_effect c5State c5State c5Resp
    [Out.signReq exProof ⟨⟨1, 0⟩, 7⟩] () rfl rfl⟩

/-- C6: when the matched item is Signed and `add_signature_if_matched` fails
(mismatched ledger info or invalid signature), the vote is discarded: the
item is reinstalled unchanged, the whole commit-vote arm leaves the state
identical and emits nothing — no aggregation and no persistence.  (The error
logging itself is outside the model.) -/
theorem c6_failed_vote_no_change (s : StateManager) (vote : CommitVote) (k : Nat)
    (it : BufferItem) (e : BufferItem.SigError)
    (hfind : s.buffer.find_elem s.buffer.head
      (fun x => x.block_id = vote.ledger_info.commit_info.id) = some k)
    (hget : s.buffer.get? k = some it)
    (hsigned : it.is_signed = true)
    (herr : it.add_signature_if_matched s.verifier vote.ledger_info.commit_info
      vote.author vote.signature = .error e) :
    StateManager.armCommit s vote = .ok (s, []) := by
  have hagg : it.is_aggregated = false := by
    cases it <;> simp_all [BufferItem.is_signed, BufferItem.is_aggregated]
  have hset : s.buffer.set_elem k it = s.buffer := set_elem_same _ _ _ hget
  have hproc : s.process_commit_message vote = (s, none) := by
    simp only [StateManager.process_commit_message, hfind, hget, herr]
    simp [hagg, hset]
  simp [StateManager.armCommit, hproc]

/-- C6, witness: a vote whose commit info carries the right block id but a
mismatching payload is discarded with the state unchanged. -/
theorem c6_witness :
    exSigned1.is_signed = true ∧
    StateManager.armCommit c6State c6Vote = .ok (c6State, []) :=
  ⟨rfl, c6_failed_vote_no_change c6State c6Vote 0 exSigned1
    .mismatchedLedgerInfo rfl rfl rfl rfl⟩

/-- C7: under the spec's cursor invariants (states before the first Ordered
item never regress — Ordered-ness is upward closed — and the execution root
points to an Ordered item when present), an execution response behaves as
claimed: an error result is fatal; when the scan from the execution root
finds the item with the last executed block's id that item is Ordered (the
wrong-state fatal branch is not taken) and is replaced in place by its
Executed transition; when nothing is found the state is unchanged. -/
theorem c7_execution_response (s : StateManager) (resp : ExecutionResponse)
    (hshape : ShapeOrderedUpClosed s.buffer)
    (hroot : ExecRootOrdered s) :
    (∀ e, resp.inner = .error e →
      s.process_execution_response resp = .error .executionFailure) ∧
    (∀ bs lastB, resp.inner = .ok bs → bs.getLast? = some lastB →
      s.buffer.find_elem s.execution_root
        (fun it => it.block_id = lastB.block_info.id) = none →
      s.process_execution_response resp = .ok s) ∧
    (∀ bs lastB k, resp.inner = .ok bs → bs.getLast? = some lastB →
      s.buffer.find_elem s.execution_root
        (fun it => it.block_id = lastB.block_info.id) = some k →
      ∃ it, s.buffer.get? k = some it ∧ it.is_ordered = true ∧
        s.process_execution_response resp =
          .ok { s with
                buffer := s.buffer.set_elem k (it.advance_to_executed bs) }) := by
  refine ⟨?_, ?_, ?_⟩
  · intro e he
    simp [StateManager.process_execution_response, he]
  · intro bs lastB hin hlast hfind
    simp [StateManager.process_execution_response, hin, hlast, hfind]
  · intro bs lastB k hin hlast hfind
    rcases hr : s.execution_root with _ | c
    · rw [hr] at hfind
      exact absurd hfind (by simp [BufferList.find_elem])
    · unfold ExecRootOrdered at hroot
      rw [hr] at hroot
      simp only [Option.elim] at hroot
      rcases hg : s.buffer.get? c with _ | itc
      · rw [hg] at hroot
        simp at hroot
      · rw [hg] at hroot
        simp only [Option.elim] at hroot
        rw [hr] at hfind
        obtain ⟨hck, ⟨it, hgetk, hpk⟩, hmin⟩ :=
          find_elem_some_spec s.buffer c k _ hfind
        have hcoff : s.buffer.off ≤ c := get?_off_le _ _ _ hg
        have hkoff : s.buffer.off ≤ k := get?_off_le _ _ _ hgetk
        have hgi : s.buffer.items[c - s.buffer.off]? = some itc := by
          unfold BufferList.get? at hg
          rw [if_neg (by omega)] at hg
          exact hg
        have hgk : s.buffer.items[k - s.buffer.off]? = some it := by
          unfold BufferList.get? at hgetk
          rw [if_neg (by omega)] at hgetk
          exact hgetk
        have hord : it.is_ordered = true := by
          have hlen : k - s.buffer.off < s.buffer.items.length :=
            getElem?_lt_length _ _ _ hgk
          have := hshape (k - s.buffer.off) hlen (c - s.buffer.off) (by omega)
            (by rw [getD_of_getElem? _ _ _ hgi]; exact hroot)
          rw [getD_of_getElem? _ _ _ hgk] at this
          exact this
        refine ⟨it, hgetk, hord, ?_⟩
        simp [StateManager.process_execution_response, hin, hlast, hr, hfind,
          hgetk, hord]

/-- C7, witness: the Ordered item at the root is found and transitioned on
the concrete execution response. -/
theorem c7_witness :
    ShapeOrderedUpClosed c7State.buffer ∧ ExecRootOrdered c7State ∧
    ∃ it, c7State.buffer.get? 0 = some it ∧ it.is_ordered = true ∧
      c7State.process_execution_response c7Resp =
        .ok { c7State with
              buffer := c7State.buffer.set_elem 0 (it.advance_to_executed [exB1]) } :=
  ⟨by decide, by decide,
   (c7_execution_response c7State c7Resp (by decide) (by decide)).2.2
     [exB1] exB1 0 rfl rfl rfl⟩

/-- C8: under the spec's cursor invariants (no Ordered item strictly before
the execution scan start, no Executed item strictly before the signing scan
start) and well-formedness of Executed items, the two root advances behave
as claimed: the new cursor is exactly the first item of the predicate state
in the whole buffer — never strictly past it — or absent when no such item
exists, and exactly when an item is found one stage request for it is
emitted (the execution request with its blocks; the signing request with its
ordered proof and derived commit ledger-info). -/
theorem c8_advance_roots (s : StateManager)
    (hexec : (s.execution_root.orElse fun _ => s.buffer.head).elim True
      (fun c => NoneSatBefore s.buffer (s.buffer.off + (c - s.buffer.off))
        (fun it => it.is_ordered)))
    (hsign : (s.signing_root.orElse fun _ => s.buffer.head).elim True
      (fun c => NoneSatBefore s.buffer (s.buffer.off + (c - s.buffer.off))
        (fun it => it.is_executed)))
    (hne : ExecutedNonempty s.buffer) :
    ((∀ m, (s.advance_execution_root).1.execution_root = some m →
      ∃ it, s.buffer.get? m = some it ∧ it.is_ordered = true ∧
        (∀ q it2, s.buffer.get? q = some it2 → it2.is_ordered = true → m ≤ q) ∧
        (s.advance_execution_root).2 = [Out.execReq it.get_blocks]) ∧
     ((s.advance_execution_root).1.execution_root = none →
      (s.advance_execution_root).2 = [] ∧
        ∀ q it2, s.buffer.get? q = some it2 → it2.is_ordered = false)) ∧
    (∃ s3 outs3, s.advance_signing_root = .ok (s3, outs3) ∧
      (∀ m, s3.signing_root = some m →
        ∃ bs proof cb lastB,
          s.buffer.get? m = some (BufferItem.executed bs proof cb) ∧
          bs.getLast? = some lastB ∧
          (∀ q it2, s.buffer.get? q = some it2 → it2.is_executed = true → m ≤ q) ∧
          outs3 = [Out.signReq proof
            ⟨lastB.block_info, proof.ledger_info.consensus_data_hash⟩]) ∧
      (s3.signing_root = none → outs3 = [] ∧
        ∀ q it2, s.buffer.get? q = some it2 → it2.is_executed = false)) := by
  constructor
  · constructor
    · intro m hm
      rw [advance_execution_root_root] at hm
      rcases hcur : (s.execution_root.orElse fun _ => s.buffer.head) with _ | c
      · rw [hcur] at hm
        exact absurd hm (by simp [BufferList.find_elem])
      · rw [hcur] at hexec hm
        simp only [Option.elim] at hexec
        obtain ⟨hcm, ⟨it, hget, hp⟩, hmin⟩ := find_elem_some_spec s.buffer c m _ hm
        refine ⟨it, hget, hp, ?_, ?_⟩
        · intro q it2 hget2 hord2
          by_contra hqm
          have hqoff : s.buffer.off ≤ q := get?_off_le _ _ _ hget2
          have hgi2 : s.buffer.items[q - s.buffer.off]? = some it2 := by
            unfold BufferList.get? at hget2
            rw [if_neg (by omega)] at hget2
            exact hget2
          by_cases hqs : q < s.buffer.off + (c - s.buffer.off)
          · have := hexec (q - s.buffer.off) (getElem?_lt_length _ _ _ hgi2)
              (by omega)
            rw [getD_of_getElem? _ _ _ hgi2] at this
            simp [hord2] at this
          · have := hmin q (by omega) (by omega) it2 hget2
            rw [hord2] at this
            exact absurd this (by simp)
        · simp only [StateManager.advance_execution_root, hcur, hm, hget]
    · intro hm
      rw [advance_execution_root_root] at hm
      constructor
      · simp only [StateManager.advance_execution_root, hm]
      · intro q it2 hget2
        rcases hcur : (s.execution_root.orElse fun _ => s.buffer.head) with _ | c
        · rcases hr : s.execution_root with _ | c0
          · rw [hr] at hcur
            simp only [Option.orElse] at hcur
            have hhead := head_of_get? _ _ _ hget2
            rw [hhead] at hcur
            exact absurd hcur (by simp)
          · rw [hr] at hcur
            simp [Option.orElse] at hcur
        · rw [hcur] at hexec hm
          simp only [Option.elim] at hexec
          by_cases hord2 : it2.is_ordered = true
          · exfalso
            have hqoff : s.buffer.off ≤ q := get?_off_le _ _ _ hget2
            have hgi2 : s.buffer.items[q - s.buffer.off]? = some it2 := by
              unfold BufferList.get? at hget2
              rw [if_neg (by omega)] at hget2
              exact hget2
            by_cases hqs : q < s.buffer.off + (c - s.buffer.off)
            · have := hexec (q - s.buffer.off) (getElem?_lt_length _ _ _ hgi2)
                (by omega)
              rw [getD_of_getElem? _ _ _ hgi2] at this
              simp [hord2] at this
            · have := find_elem_none_spec s.buffer c _ hm q it2 hget2 (by omega)
              simp [hord2] at this
          · revert hord2
            cases it2.is_ordered <;> simp
  · rcases hfind : s.buffer.find_elem
        (s.signing_root.orElse fun _ => s.buffer.head)
        (fun it => it.is_executed) with _ | m
    · refine ⟨{ s with signing_root := none }, [], ?_, ?_, ?_⟩
      · simp only [StateManager.advance_signing_root, hfind]
      · intro m hm
        simp at hm
      · intro _
        refine ⟨rfl, ?_⟩
        intro q it2 hget2
        rcases hcur : (s.signing_root.orElse fun _ => s.buffer.head) with _ | c
        · rcases hr : s.signing_root with _ | c0
          · rw [hr] at hcur
            simp only [Option.orElse] at hcur
            have hhead := head_of_get? _ _ _ hget2
            rw [hhead] at hcur
            exact absurd hcur (by simp)
          · rw [hr] at hcur
            simp [Option.orElse] at hcur
        · rw [hcur] at hsign hfind
          simp only [Option.elim] at hsign
          by_cases hexec2 : it2.is_executed = true
          · exfalso
            have hqoff : s.buffer.off ≤ q := get?_off_le _ _ _ hget2
            have hgi2 : s.buffer.items[q - s.buffer.off]? = some it2 := by
              unfold BufferList.get? at hget2
              rw [if_neg (by omega)] at hget2
              exact hget2
            by_cases hqs : q < s.buffer.off + (c - s.buffer.off)
            · have := hsign (q - s.buffer.off) (getElem?_lt_length _ _ _ hgi2)
                (by omega)
              rw [getD_of_getElem? _ _ _ hgi2] at this
              simp [hexec2] at this
            · have := find_elem_none_spec s.buffer c _ hfind q it2 hget2 (by omega)
              simp [hexec2] at this
          · revert hexec2
            cases it2.is_executed <;> simp
    · rcases hcur : (s.signing_root.orElse fun _ => s.buffer.head) with _ | c
      · rw [hcur] at hfind
        exact absurd hfind (by simp [BufferList.find_elem])
      · rw [hcur] at hsign hfind
        simp only [Option.elim] at hsign
        obtain ⟨hcm, ⟨it, hget, hp⟩, hmin⟩ := find_elem_some_spec s.buffer c m _ hfind
        cases it with
        | executed bs proof cb =>
            have hmem : BufferItem.executed bs proof cb ∈ s.buffer.items := by
              have hqoff : s.buffer.off ≤ m := get?_off_le _ _ _ hget
              unfold BufferList.get? at hget
              rw [if_neg (by omega)] at hget
              exact List.getElem?_mem hget
            have hbs : bs ≠ [] := by
              have h2 := hne _ hmem (by simp [BufferItem.is_executed])
              simpa [BufferItem.get_blocks] using h2
            have hlastSome : bs.getLast?.isSome := List.getLast?_isSome.mpr hbs
            obtain ⟨lastB, hlast⟩ := Option.isSome_iff_exists.mp hlastSome
            refine ⟨{ s with signing_root := some m },
              [Out.signReq proof
                ⟨lastB.block_info, proof.ledger_info.consensus_data_hash⟩],
              ?_, ?_, ?_⟩
            · simp only [StateManager.advance_signing_root, hcur, hfind, hget,
                hlast]
            · intro m2 hm2
              simp at hm2
              subst hm2
              refine ⟨bs, proof, cb, lastB, hget, hlast, ?_, rfl⟩
              intro q it2 hget2 hexec2
              by_contra hqm
              have hqoff : s.buffer.off ≤ q := get?_off_le _ _ _ hget2
              have hgi2 : s.buffer.items[q - s.buffer.off]? = some it2 := by
                unfold BufferList.get? at hget2
                rw [if_neg (by omega)] at hget2
                exact hget2
              by_cases hqs : q < s.buffer.off + (c - s.buffer.off)
              · have := hsign (q - s.buffer.off) (getElem?_lt_length _ _ _ hgi2)
                  (by omega)
                rw [getD_of_getElem? _ _ _ hgi2] at this
                simp [hexec2] at this
              · have := hmin q (by omega) (by omega) it2 hget2
                rw [hexec2] at this
                exact absurd this (by simp)
            · intro hnone
              simp at hnone
        | ordered a b c2 => simp [BufferItem.is_executed] at hp
        | signed a b c2 d e2 => simp [BufferItem.is_executed] at hp
        | aggregated a b c2 => simp [BufferItem.is_executed] at hp

/-- C8, witness: in a buffer [Signed, Executed, Ordered] with the cursors on
positions 2 (execution) and 1 (signing), both advances keep the cursors in
place and emit the corresponding requests. -/
theorem c8_witness :
    (∃ it, c8State.buffer.get? 2 = some it ∧ it.is_ordered = true ∧
      (∀ q it2, c8State.buffer.get? q = some it2 → it2.is_ordered = true →
        2 ≤ q) ∧
      (c8State.advance_execution_root).2 = [Out.execReq it.get_blocks]) ∧
    (∃ s3 outs3, c8State.advance_signing_root = .ok (s3, outs3) ∧
      (∀ m, s3.signing_root = some m →
        ∃ bs proof cb lastB,
          c8State.buffer.get? m = some (BufferItem.executed bs proof cb) ∧
          bs.getLast? = some lastB ∧
          (∀ q it2, c8State.buffer.get? q = some it2 → it2.is_executed = true →
            m ≤ q) ∧
          outs3 = [Out.signReq proof
            ⟨lastB.block_info, proof.ledger_info.consensus_data_hash⟩]) ∧
      (s3.signing_root = none → outs3 = [] ∧
        ∀ q it2, c8State.buffer.get? q = some it2 → it2.is_executed = false)) := by
  have h := c8_advance_roots c8State (by decide) (by decide) (by decide)
  exact ⟨h.1.1 2 rfl, h.2⟩

/-- C9, amended: `process_ordered_blocks` performs no rejection or
deduplication whatsoever — it unconditionally appends a fresh Ordered item
built from the event, leaving everything else unchanged. -/
theorem c9_push_unconditional (s : StateManager) (ob : OrderedBlocks) :
    (s.process_ordered_blocks ob).buffer.items =
      s.buffer.items ++
        [BufferItem.new_ordered ob.ordered_blocks ob.ordered_proof ob.callback] ∧
    (s.process_ordered_blocks ob).buffer.off = s.buffer.off ∧
    (s.process_ordered_blocks ob).execution_root = s.execution_root ∧
    (s.process_ordered_blocks ob).signing_root = s.signing_root :=
  ⟨rfl, rfl, rfl, rfl⟩

/-- C9, counterexample: replaying the same Ordered-blocks event leaves two
items with the same block id in the buffer — uniqueness is violated rather
than the replay being rejected or deduplicated. -/
theorem c9_counterexample :
    c9State.buffer.items.map BufferItem.block_id = [1, 1] ∧
      ¬ (c9State.buffer.items.map BufferItem.block_id).Nodup := by
  exact ⟨rfl, by decide⟩

/-- C10: every dispatcher arm keeps the buffer free of Aggregated items —
whenever a handler makes an item Aggregated (quorum vote in the commit arm,
external ledger info in the sync arm), `advance_head` runs within the same
arm and pops it, so at the completion of any successful arm no Aggregated
item remains; the retry arm never changes the state at all. -/
theorem c10_no_aggregated_after_handlers (s : StateManager)
    (hna : NoAggregated s.buffer) :
    (∀ ob, NoAggregated ((s.armBlocks ob).1.buffer)) ∧
    (∀ req s2 outs, s.armSync req = .ok (s2, outs) → NoAggregated s2.buffer) ∧
    (∀ resp s2 outs, s.armExecResp resp = .ok (s2, outs) →
      NoAggregated s2.buffer) ∧
    (∀ resp s2 outs, s.armSignResp resp = .ok (s2, outs) →
      NoAggregated s2.buffer) ∧
    (∀ vote s2 outs, s.armCommit vote = .ok (s2, outs) →
      NoAggregated s2.buffer) ∧
    (∀ fuel s2 outs, s.armRetry fuel = some (.ok (s2, outs)) →
      NoAggregated s2.buffer) := by
  refine ⟨?_, ?_, ?_, ?_, ?_, ?_⟩
  · intro ob
    have hb1 : NoAggregated (s.process_ordered_blocks ob).buffer := by
      intro x hx
      simp only [StateManager.process_ordered_blocks, BufferList.push_back] at hx
      rcases List.mem_append.mp hx with hx1 | hx1
      · exact hna x hx1
      · simp at hx1
        subst hx1
        rfl
    simp only [StateManager.armBlocks]
    split
    · obtain ⟨-, hbuf, -, -⟩ :=
        advance_execution_root_shape (s.process_ordered_blocks ob)
      rw [hbuf]
      exact hb1
    · exact hb1
  · intro req s2 outs h
    simp only [StateManager.armSync] at h
    split at h
    · simp at h
    · rename_i s1 outs1 hps
      have hs1 := process_sync_request_noAgg s s1 req outs1 hna hps
      rcases hmid : (if s1.execution_root.isNone then s1.advance_execution_root
        else (s1, [])) with ⟨sm, om⟩
      have hsmbuf : sm.buffer = s1.buffer := by
        obtain ⟨-, hbuf, -, -⟩ := advance_execution_root_shape s1
        split at hmid
        · rw [hmid] at hbuf
          simpa using hbuf
        · cases hmid
          rfl
      rw [hmid] at h
      simp only at h
      split at h
      · split at h
        · simp at h
        · rename_i hsr
          simp at h
          obtain ⟨hs2, -⟩ := h
          subst hs2
          obtain ⟨-, hbuf2, -, -, -⟩ := advance_signing_root_shape _ _ _ hsr
          rw [hbuf2, hsmbuf]
          exact hs1
      · simp at h
        obtain ⟨hs2, -⟩ := h
        subst hs2
        rw [hsmbuf]
        exact hs1
  · intro resp s2 outs h
    simp only [StateManager.armExecResp] at h
    split at h
    · simp at h
    · rename_i s1 hper
      have hs1 := process_execution_response_noAgg s s1 resp hna hper
      rcases hmid : s1.advance_execution_root with ⟨sm, om⟩
      have hsmbuf : sm.buffer = s1.buffer := by
        obtain ⟨-, hbuf, -, -⟩ := advance_execution_root_shape s1
        rw [hmid] at hbuf
        simpa using hbuf
      rw [hmid] at h
      simp only at h
      split at h
      · split at h
        · simp at h
        · rename_i hsr
          simp at h
          obtain ⟨hs2, -⟩ := h
          subst hs2
          obtain ⟨-, hbuf2, -, -, -⟩ := advance_signing_root_shape _ _ _ hsr
          rw [hbuf2, hsmbuf]
          exact hs1
      · simp at h
        obtain ⟨hs2, -⟩ := h
        subst hs2
        rw [hsmbuf]
        exact hs1
  · intro resp s2 outs h
    simp only [StateManager.armSignResp] at h
    rcases hp : s.process_signing_response resp with ⟨s1, outs1⟩
    have hs1 : NoAggregated s1.buffer := by
      have h2 := process_signing_response_noAgg s resp hna
      rw [hp] at h2
      exact h2
    rw [hp] at h
    simp only at h
    split at h
    · simp at h
    · rename_i s2v outs2 hsr
      simp at h
      obtain ⟨hs2, -⟩ := h
      subst hs2
      obtain ⟨-, hbuf2, -, -, -⟩ := advance_signing_root_shape _ _ _ hsr
      rw [hbuf2]
      exact hs1
  · intro vote s2 outs h
    simp only [StateManager.armCommit] at h
    rcases hp : s.process_commit_message vote with ⟨s1, r⟩
    obtain ⟨hnone, hsome⟩ := process_commit_message_noAgg s s1 vote r hna hp
    rw [hp] at h
    simp only at h
    split at h
    · simp at h
      obtain ⟨hs2, -⟩ := h
      subst hs2
      exact hnone rfl
    · rename_i k
      split at h
      · simp at h
      · rename_i s3 outs3 hah
        simp at h
        obtain ⟨hs2, -⟩ := h
        subst hs2
        obtain ⟨newIt, hitems⟩ := hsome k rfl
        exact advance_head_ok_noAgg s1 s3 outs3 (some k) s.buffer.items
          (k - s.buffer.off) newIt hna hitems hah
  · intro fuel s2 outs h
    simp only [StateManager.armRetry] at h
    split at h
    · simp at h
    · simp at h
    · simp at h
      obtain ⟨hs2, -⟩ := h
      subst hs2
      exact hna

/-- C10, witness: from a Signed-only buffer the ordered-blocks arm leaves no
Aggregated item. -/
theorem c10_witness :
    NoAggregated c10State.buffer ∧
    NoAggregated ((c10State.armBlocks c10Ob).1.buffer) :=
  ⟨by decide,
   (c10_no_aggregated_after_handlers c10State (by decide)).1 c10Ob⟩

end BufferManager
